import Mathlib

/-!
# Verification of the hash-snapshot comparison engine

A shallow embedding of `pkg/hash_persistence.go` (and the `hash-differ`
CLI's projection logic) from the target-determinator repository.

Modelling conventions:
* Go maps (`map[string]V`) are modelled as association lists
  `List (String × V)`; the list order stands for Go's (unspecified)
  iteration order, and well-formedness (`WellFormedT`) requires the keys
  to be distinct, which is an invariant of every Go map.
* Go's zero-value strings are modelled as `""`; the `omitempty` JSON
  fields `BeforeHash`/`AfterHash` of a `HashDiff` are plain strings where
  `""` means "absent", exactly as in the Go struct.
* File I/O is modelled by passing the (possibly unreadable) content
  directly: a source is `Option Json`, with `none` standing for an
  unreadable file.  JSON serialization is modelled at the tree level by
  the `Json` inductive; byte-level printing/parsing is the Go standard
  library's, outside the repository.
* Fallible Go functions returning `(T, error)` are modelled as
  `Except String T`.
-/

namespace TargetDeterminator

/-- Association-list lookup, modelling Go map indexing `m[k]`. -/
def lookupA {α : Type} (k : String) : List (String × α) → Option α
  | [] => none
  | p :: rest => if p.1 = k then some p.2 else lookupA k rest

/-- The two-level target-hash mapping: target label → configuration
checksum → content hash (`map[string]map[string]string` in Go). -/
abbrev THash := List (String × List (String × String))

/-- Hash of the (label, configuration) pair in a snapshot's mapping,
`none` when the label or the configuration is absent. -/
def lookupHash (m : THash) (label config : String) : Option String :=
  (lookupA label m).bind (fun cfgs => lookupA config cfgs)

/-- Well-formedness of a target-hash mapping, from the spec's data-model
invariants: labels are unique keys, configuration keys are unique within
a label, and every hash is a (non-empty) hex string.  Go maps always
satisfy the key-uniqueness part. -/
def WellFormedT (m : THash) : Prop :=
  (m.map Prod.fst).Nodup ∧
    ∀ p ∈ m, (p.2.map Prod.fst).Nodup ∧ ∀ q ∈ p.2, q.2 ≠ ""

instance (m : THash) : Decidable (WellFormedT m) := by
  unfold WellFormedT; infer_instance

/-- `HashMetadata` (hash_persistence.go): metadata about the hash
computation. -/
structure HashMetadata where
  targetsPattern : String
  workspacePath : String
  totalTargets : Int
  deriving Repr, DecidableEq

/-- `PersistedHashData` (hash_persistence.go): the structure of a
persisted hash file.  The `Timestamp` field is kept as its RFC3339
string form. -/
structure PersistedHashData where
  gitCommitSha : String
  timestamp : String
  bazelRelease : String
  targetHashes : THash
  metadata : HashMetadata
  deriving Repr, DecidableEq

/-- Well-formedness of a whole snapshot: its target-hash mapping is
well-formed. -/
def WellFormedData (d : PersistedHashData) : Prop :=
  WellFormedT d.targetHashes

instance (d : PersistedHashData) : Decidable (WellFormedData d) := by
  unfold WellFormedData; infer_instance

/-- `HashDiff` (hash_persistence.go): one difference between two hash
files.  `beforeHash`/`afterHash` are `""` when absent, as in the Go
struct (strings with `omitempty`). -/
structure HashDiff where
  label : String
  configuration : String
  status : String
  beforeHash : String
  afterHash : String
  deriving Repr, DecidableEq

/-- `HashComparisonSummary` (hash_persistence.go): summary statistics of
the comparison.

The `afterTargets` field is Modelled from the spec: it is referenced by
`outputTargetList` in the hash-differ CLI as `result.Summary.AfterTargets`
but its declaration and population are missing from the provided
`pkg` sources; per the spec, a label is a member exactly when it has at
least one configuration present in the after-snapshot's map. -/
structure HashComparisonSummary where
  totalChanged : Int
  totalAdded : Int
  totalRemoved : Int
  affectedTargets : List String
  afterTargets : List String
  deriving Repr, DecidableEq

/-- `HashComparisonResult` (hash_persistence.go): the results of
comparing two hash files. -/
structure HashComparisonResult where
  beforeCommit : String
  afterCommit : String
  differences : List HashDiff
  summary : HashComparisonSummary
  deriving Repr, DecidableEq

/-- The removed/changed/added-within-existing-label pass of
`CompareHashFiles` (lines 159–213): one iteration of the outer loop over
the before-snapshot's labels. -/
def diffsForBeforeLabel (afterT : THash) (p : String × List (String × String)) :
    List HashDiff :=
  match lookupA p.1 afterT with
  | none =>
      -- Target was removed entirely
      p.2.map (fun q => ⟨p.1, q.1, "removed", q.2, ""⟩)
  | some afterConfigs =>
      -- Check each configuration of the target
      (p.2.filterMap (fun q =>
        match lookupA q.1 afterConfigs with
        | none => some ⟨p.1, q.1, "removed", q.2, ""⟩
        | some afterHash =>
            if q.2 ≠ afterHash then some ⟨p.1, q.1, "changed", q.2, afterHash⟩
            else none)) ++
      -- Check for added configurations in existing targets
      (afterConfigs.filterMap (fun q =>
        match lookupA q.1 p.2 with
        | none => some ⟨p.1, q.1, "added", "", q.2⟩
        | some _ => none))

/-- The entirely-new-targets pass of `CompareHashFiles` (lines 215–228):
one iteration of the loop over the after-snapshot's labels. -/
def diffsForAfterLabel (beforeT : THash) (p : String × List (String × String)) :
    List HashDiff :=
  match lookupA p.1 beforeT with
  | some _ => []
  | none => p.2.map (fun q => ⟨p.1, q.1, "added", "", q.2⟩)

/-- The full differences list accumulated by `CompareHashFiles`
(lines 156–228), in the order the Go loops append. -/
def compareDiffs (beforeT afterT : THash) : List HashDiff :=
  beforeT.flatMap (diffsForBeforeLabel afterT) ++
    afterT.flatMap (diffsForAfterLabel beforeT)

/-- The summary-count tally of `CompareHashFiles` (lines 241–250):
(added, removed, changed) counts of the differences by status. -/
def tallyCounts : List HashDiff → Int × Int × Int
  | [] => (0, 0, 0)
  | d :: rest =>
      let t := tallyCounts rest
      match d.status with
      | "added" => (t.1 + 1, t.2.1, t.2.2)
      | "removed" => (t.1, t.2.1 + 1, t.2.2)
      | "changed" => (t.1, t.2.1, t.2.2 + 1)
      | _ => t

/-- The affected-targets derivation of `CompareHashFiles`
(lines 157–235): the set of labels touched by any difference, as a
sorted slice.  The Go code accumulates a set and sorts it; here the set
is the deduplicated label list and `sort.Strings` is `insertionSort`. -/
def affectedFromDiffs (differences : List HashDiff) : List String :=
  List.insertionSort (· ≤ ·) (differences.map (·.label)).dedup

/-- Modelled from the spec: the `AfterTargets` summary member used by
`outputTargetList` but absent from the provided `pkg` sources — the
labels having at least one configuration present in the
after-snapshot's map. -/
def afterTargetsOf (afterT : THash) : List String :=
  (afterT.filter (fun p => !p.2.isEmpty)).map Prod.fst

/-- The pure core of `CompareHashFiles` (lines 156–257): everything
after the two loads. -/
def compareHashData (beforeData afterData : PersistedHashData) :
    HashComparisonResult :=
  let differences := compareDiffs beforeData.targetHashes afterData.targetHashes
  let t := tallyCounts differences
  { beforeCommit := beforeData.gitCommitSha
    afterCommit := afterData.gitCommitSha
    differences := differences
    summary :=
      { totalChanged := t.2.2
        totalAdded := t.1
        totalRemoved := t.2.1
        affectedTargets := affectedFromDiffs differences
        afterTargets := afterTargetsOf afterData.targetHashes } }

/-- `GetAffectedTargetLabels` (lines 261–277): unique target labels of
the differences, in order of first appearance.  The gazelle label
parsing step is external to the repository and does not alter which
labels appear or their order, so labels stay strings here. -/
def getAffectedTargetLabels (result : HashComparisonResult) : List String :=
  go [] result.differences
where
  /-- The loop with its `seenLabels` set. -/
  go (seen : List String) : List HashDiff → List String
  | [] => []
  | d :: rest =>
      if d.label ∈ seen then go seen rest
      else d.label :: go (d.label :: seen) rest

/-- `outputTargetList` (hash-differ CLI, lines 138–162): the labels
printed one per line — the affected targets filtered by
`AfterTargets[target] || includeRemoved`. -/
def outputTargetList (result : HashComparisonResult) (includeRemoved : Bool) :
    List String :=
  result.summary.affectedTargets.filter
    (fun target => result.summary.afterTargets.contains target || includeRemoved)

/-! ## The persisted JSON form

JSON documents are modelled at the tree level; the snapshot schema only
uses strings, integers and objects.  An object's field list models
Go's decoding order (`jLookupLast` gives the last-write-wins semantics
of `encoding/json` for duplicate keys). -/

/-- A JSON value, restricted to the kinds the snapshot schema uses. -/
inductive Json where
  | str (s : String)
  | num (n : Int)
  | obj (fields : List (String × Json))

/-- Last-write-wins field lookup, as `encoding/json` applies object
keys in sequence. -/
def jLookupLast (fields : List (String × Json)) (k : String) : Option Json :=
  fields.foldl (fun acc p => if p.1 = k then some p.2 else acc) none

/-- Decoding a struct field of type `string`: an absent field keeps the
zero value `""`, as `encoding/json` does. -/
def decodeStringField : Option Json → Except String String
  | none => .ok ""
  | some (.str s) => .ok s
  | some _ => .error "cannot unmarshal into Go value of type string"

/-- Decoding a struct field of type `int`: an absent field keeps the
zero value `0`. -/
def decodeIntField : Option Json → Except String Int
  | none => .ok 0
  | some (.num n) => .ok n
  | some _ => .error "cannot unmarshal into Go value of type int"

/-- Decoding an object's fields into a `map[string]string`. -/
def decodeStringMap : List (String × Json) → Except String (List (String × String))
  | [] => .ok []
  | p :: rest =>
      match p.2 with
      | .str s => (decodeStringMap rest).map (fun r => (p.1, s) :: r)
      | _ => .error "cannot unmarshal into Go value of type map[string]string"

/-- Decoding one label's configuration map. -/
def decodeConfigMap : Json → Except String (List (String × String))
  | .obj fields => decodeStringMap fields
  | _ => .error "cannot unmarshal into Go value of type map[string]string"

/-- Decoding the entries of the two-level `target_hashes` object. -/
def decodeTHashEntries : List (String × Json) → Except String THash
  | [] => .ok []
  | p :: rest =>
      match decodeConfigMap p.2 with
      | .error e => .error e
      | .ok cfgs => (decodeTHashEntries rest).map (fun r => (p.1, cfgs) :: r)

/-- Decoding the `target_hashes` struct field: an absent field keeps the
zero value (a nil map, modelled as `[]`). -/
def decodeTargetHashesField : Option Json → Except String THash
  | none => .ok []
  | some (.obj fields) => decodeTHashEntries fields
  | some _ => .error "cannot unmarshal into Go value of type map[string]map[string]string"

/-- Decoding the `metadata` struct field: an absent field keeps the zero
value. -/
def decodeMetadataField : Option Json → Except String HashMetadata
  | none => .ok ⟨"", "", 0⟩
  | some (.obj fields) => do
      let tp ← decodeStringField (jLookupLast fields "targets_pattern")
      let wp ← decodeStringField (jLookupLast fields "workspace_path")
      let tt ← decodeIntField (jLookupLast fields "total_targets")
      .ok ⟨tp, wp, tt⟩
  | some _ => .error "cannot unmarshal into Go value of type HashMetadata"

/-- Decoding a whole persisted hash document, with `encoding/json`'s
semantics for the `PersistedHashData` struct: field-tag lookup, absent
fields defaulted to zero values, type mismatch an error. -/
def decodePersistedHashData : Json → Except String PersistedHashData
  | .obj fields => do
      let sha ← decodeStringField (jLookupLast fields "git_commit_sha")
      let ts ← decodeStringField (jLookupLast fields "timestamp")
      let br ← decodeStringField (jLookupLast fields "bazel_release")
      let th ← decodeTargetHashesField (jLookupLast fields "target_hashes")
      let md ← decodeMetadataField (jLookupLast fields "metadata")
      .ok ⟨sha, ts, br, th, md⟩
  | _ => .error "cannot unmarshal JSON into Go value of type PersistedHashData"

/-- Encoding one label's configuration map. -/
def encodeConfigMap (cfgs : List (String × String)) : Json :=
  Json.obj (cfgs.map (fun q => (q.1, Json.str q.2)))

/-- Encoding the two-level `target_hashes` mapping. -/
def encodeTargetHashes (th : THash) : Json :=
  Json.obj (th.map (fun p => (p.1, encodeConfigMap p.2)))

/-- Encoding the `metadata` block with its field tags. -/
def encodeMetadata (m : HashMetadata) : Json :=
  Json.obj [("targets_pattern", .str m.targetsPattern),
            ("workspace_path", .str m.workspacePath),
            ("total_targets", .num m.totalTargets)]

/-- Encoding a persisted hash document with the struct's field tags, in
struct order — the serialization `PersistHashes` writes (lines 80–84). -/
def encodePersistedHashData (d : PersistedHashData) : Json :=
  Json.obj [("git_commit_sha", .str d.gitCommitSha),
            ("timestamp", .str d.timestamp),
            ("bazel_release", .str d.bazelRelease),
            ("target_hashes", encodeTargetHashes d.targetHashes),
            ("metadata", encodeMetadata d.metadata)]

/-! ## The persist / load / compare entry points -/

/-- The inputs `PersistHashes` draws its hashes from: the matching
targets with their configurations, and the Bazel release.  The target
hash cache is modelled by a total hash function, the cache having been
prefilled by the caller (its error path belongs to the external hashing
collaborator). -/
structure QueryResults where
  matchingTargets : List (String × List String)
  bazelRelease : String

/-- The part of the CLI `Context` that `PersistHashes` reads. -/
structure Context where
  workspacePath : String

/-- The hash-extraction loop of `PersistHashes` (lines 40–60): builds
`targetHashes` and counts `totalTargets`, one increment per (label,
configuration) pair. -/
def extractHashes (hashFn : String → String → String) :
    List (String × List String) → THash × Int
  | [] => ([], 0)
  | p :: rest =>
      let t := extractHashes hashFn rest
      ((p.1, p.2.map (fun config => (config, hashFn p.1 config))) :: t.1,
        (p.2.length : Int) + t.2)

/-- The `persistedData` value assembled by `PersistHashes`
(lines 62–72). -/
def buildPersistedData (gitCommitSha : String) (queryResults : QueryResults)
    (context : Context) (targetsPattern : String) (timestamp : String)
    (hashFn : String → String → String) : PersistedHashData :=
  let t := extractHashes hashFn queryResults.matchingTargets
  { gitCommitSha := gitCommitSha
    timestamp := timestamp
    bazelRelease := queryResults.bazelRelease
    targetHashes := t.1
    metadata :=
      { targetsPattern := targetsPattern
        workspacePath := context.workspacePath
        totalTargets := t.2 } }

/-- `PersistHashes` (lines 39–87): the document written to the file —
the JSON encoding of the assembled data. -/
def persistHashes (gitCommitSha : String) (queryResults : QueryResults)
    (context : Context) (targetsPattern : String) (timestamp : String)
    (hashFn : String → String → String) : Json :=
  encodePersistedHashData
    (buildPersistedData gitCommitSha queryResults context targetsPattern timestamp hashFn)

/-- `LoadPersistedHashes` (lines 90–104): an unreadable source
(`none`) is an open error; otherwise the content is JSON-decoded. -/
def loadPersistedHashes : Option Json → Except String PersistedHashData
  | none => .error "failed to open hash file"
  | some j =>
      match decodePersistedHashData j with
      | .error e => .error ("failed to decode hash data: " ++ e)
      | .ok d => .ok d

/-- `CompareHashFiles` (lines 145–258): load both files, then run the
pure comparison. -/
def compareHashFiles (beforeFile afterFile : Option Json) :
    Except String HashComparisonResult :=
  match loadPersistedHashes beforeFile with
  | .error e => .error ("failed to load before hash file: " ++ e)
  | .ok beforeData =>
      match loadPersistedHashes afterFile with
      | .error e => .error ("failed to load after hash file: " ++ e)
      | .ok afterData => .ok (compareHashData beforeData afterData)

/-! ## Basic facts about association-list lookup -/

theorem mem_of_lookupA_eq_some {α : Type} {k : String} {v : α} {m : List (String × α)}
    (h : lookupA k m = some v) : (k, v) ∈ m := by
  induction m with
  | nil => simp [lookupA] at h
  | cons p rest ih =>
      obtain ⟨a, b⟩ := p
      by_cases hk : a = k
      · simp only [lookupA, if_pos hk] at h
        injection h with h
        subst hk; subst h
        exact List.mem_cons_self _ _
      · simp only [lookupA, if_neg hk] at h
        exact List.mem_cons_of_mem _ (ih h)

theorem lookupA_eq_some_of_mem {α : Type} {k : String} {v : α} {m : List (String × α)}
    (hnd : (m.map Prod.fst).Nodup) (hmem : (k, v) ∈ m) : lookupA k m = some v := by
  induction m with
  | nil => simp at hmem
  | cons p rest ih =>
      obtain ⟨a, b⟩ := p
      simp only [List.map_cons, List.nodup_cons] at hnd
      rcases List.mem_cons.mp hmem with heq | hmem'
      · injection heq with h1 h2
        subst h1; subst h2
        simp [lookupA]
      · have hak : a ≠ k := by
          intro h; subst h
          exact hnd.1 (List.mem_map_of_mem Prod.fst hmem')
        simp only [lookupA, if_neg hak]
        exact ih hnd.2 hmem'

theorem lookupA_eq_none_iff {α : Type} {k : String} {m : List (String × α)} :
    lookupA k m = none ↔ k ∉ m.map Prod.fst := by
  induction m with
  | nil => simp [lookupA]
  | cons p rest ih =>
      obtain ⟨a, b⟩ := p
      by_cases hk : a = k
      · subst hk
        simp [lookupA]
      · simp only [lookupA, if_neg hk, List.map_cons, List.mem_cons, ih]
        constructor
        · rintro h (h1 | h2)
          · exact hk h1.symm
          · exact h h2
        · intro h h2
          exact h (Or.inr h2)

theorem lookupHash_eq_some_iff {m : THash} {l c h : String} :
    lookupHash m l c = some h ↔
      ∃ cfgs, lookupA l m = some cfgs ∧ lookupA c cfgs = some h := by
  unfold lookupHash; cases lookupA l m <;> simp

theorem lookupHash_ne_empty {m : THash} (hm : WellFormedT m) {l c h : String}
    (hl : lookupHash m l c = some h) : h ≠ "" := by
  obtain ⟨cfgs, h1, h2⟩ := lookupHash_eq_some_iff.mp hl
  exact (hm.2 _ (mem_of_lookupA_eq_some h1)).2 _ (mem_of_lookupA_eq_some h2)

/-! ## The per-pair characterization of the comparison -/

/-- The record the comparison emits for a (label, configuration) pair,
characterized purely by the two hash lookups: one-sided pairs give
Removed/Added, both-sided pairs give Changed exactly when the hashes
differ, and unchanged or absent pairs give nothing. -/
def describeDiff (beforeT afterT : THash) (l c : String) : Option HashDiff :=
  match lookupHash beforeT l c, lookupHash afterT l c with
  | none, none => none
  | some bh, none => some ⟨l, c, "removed", bh, ""⟩
  | none, some ah => some ⟨l, c, "added", "", ah⟩
  | some bh, some ah => if bh = ah then none else some ⟨l, c, "changed", bh, ah⟩

/-- The (label, configuration) key of a difference record. -/
def diffKey (d : HashDiff) : String × String := (d.label, d.configuration)

theorem lookupHash_of_label_none {m : THash} {l : String} (c : String)
    (h : lookupA l m = none) : lookupHash m l c = none := by
  unfold lookupHash; rw [h]; rfl

theorem lookupHash_of_label_some {m : THash} {l : String}
    {cfgs : List (String × String)} (h : lookupA l m = some cfgs) (c : String) :
    lookupHash m l c = lookupA c cfgs := by
  unfold lookupHash; rw [h]; rfl

theorem describeDiff_eq_removed {beforeT afterT : THash} {l c bh : String}
    (hB : lookupHash beforeT l c = some bh)
    (hA : lookupHash afterT l c = none) :
    describeDiff beforeT afterT l c = some ⟨l, c, "removed", bh, ""⟩ := by
  unfold describeDiff; rw [hB, hA]

theorem describeDiff_eq_added {beforeT afterT : THash} {l c ah : String}
    (hB : lookupHash beforeT l c = none)
    (hA : lookupHash afterT l c = some ah) :
    describeDiff beforeT afterT l c = some ⟨l, c, "added", "", ah⟩ := by
  unfold describeDiff; rw [hB, hA]

theorem describeDiff_eq_changed {beforeT afterT : THash} {l c bh ah : String}
    (hB : lookupHash beforeT l c = some bh)
    (hA : lookupHash afterT l c = some ah) (hne : ¬bh = ah) :
    describeDiff beforeT afterT l c = some ⟨l, c, "changed", bh, ah⟩ := by
  unfold describeDiff
  rw [hB, hA]
  show (if bh = ah then none else some (⟨l, c, "changed", bh, ah⟩ : HashDiff)) =
    some ⟨l, c, "changed", bh, ah⟩
  rw [if_neg hne]

set_option maxRecDepth 4000 in
/-- Master membership lemma: on well-formed mappings, a record is among
the comparison's differences exactly when it is the record that the
lookup-level characterization prescribes for its own key. -/
theorem mem_compareDiffs_iff {beforeT afterT : THash}
    (hb : WellFormedT beforeT) (ha : WellFormedT afterT) {d : HashDiff} :
    d ∈ compareDiffs beforeT afterT ↔
      describeDiff beforeT afterT d.label d.configuration = some d := by
  constructor
  · intro hd
    rcases List.mem_append.mp hd with hd | hd
    · -- the pass over the before-snapshot's labels
      obtain ⟨p, hp, hdp⟩ := List.mem_flatMap.mp hd
      have hpb : lookupA p.1 beforeT = some p.2 := lookupA_eq_some_of_mem hb.1 hp
      have innerB : (p.2.map Prod.fst).Nodup := (hb.2 p hp).1
      unfold diffsForBeforeLabel at hdp
      split at hdp
      · next hcase =>
          obtain ⟨q, hq, rfl⟩ := List.mem_map.mp hdp
          have hqb : lookupA q.1 p.2 = some q.2 := lookupA_eq_some_of_mem innerB hq
          exact describeDiff_eq_removed ((lookupHash_of_label_some hpb _).trans hqb)
            (lookupHash_of_label_none _ hcase)
      · next afterConfigs hcase =>
          have hAc : (afterConfigs.map Prod.fst).Nodup :=
            (ha.2 _ (mem_of_lookupA_eq_some hcase)).1
          rcases List.mem_append.mp hdp with hdp | hdp
          · obtain ⟨q, hq, hfq⟩ := List.mem_filterMap.mp hdp
            have hqb : lookupA q.1 p.2 = some q.2 := lookupA_eq_some_of_mem innerB hq
            split at hfq
            · next hqa =>
                injection hfq with hfq
                subst hfq
                exact describeDiff_eq_removed ((lookupHash_of_label_some hpb _).trans hqb)
                  ((lookupHash_of_label_some hcase _).trans hqa)
            · next afterHash hqa =>
                split at hfq
                · next hne =>
                    injection hfq with hfq
                    subst hfq
                    exact describeDiff_eq_changed ((lookupHash_of_label_some hpb _).trans hqb)
                      ((lookupHash_of_label_some hcase _).trans hqa) hne
                · exact absurd hfq (by simp)
          · obtain ⟨q, hq, hfq⟩ := List.mem_filterMap.mp hdp
            split at hfq
            · next hqb =>
                injection hfq with hfq
                subst hfq
                have hqa : lookupA q.1 afterConfigs = some q.2 :=
                  lookupA_eq_some_of_mem hAc hq
                exact describeDiff_eq_added ((lookupHash_of_label_some hpb _).trans hqb)
                  ((lookupHash_of_label_some hcase _).trans hqa)
            · next _ _ => exact absurd hfq (by simp)
    · -- the pass over the after-snapshot's entirely new labels
      obtain ⟨p, hp, hdp⟩ := List.mem_flatMap.mp hd
      have hpa : lookupA p.1 afterT = some p.2 := lookupA_eq_some_of_mem ha.1 hp
      have innerA : (p.2.map Prod.fst).Nodup := (ha.2 p hp).1
      unfold diffsForAfterLabel at hdp
      split at hdp
      · next _ _ => exact absurd hdp (by simp)
      · next hcase =>
          obtain ⟨q, hq, rfl⟩ := List.mem_map.mp hdp
          have hqa : lookupA q.1 p.2 = some q.2 := lookupA_eq_some_of_mem innerA hq
          exact describeDiff_eq_added (lookupHash_of_label_none _ hcase)
            ((lookupHash_of_label_some hpa _).trans hqa)
  · intro hdesc
    unfold describeDiff at hdesc
    split at hdesc
    · -- absent on both sides: no record
      exact absurd hdesc (by simp)
    · -- present before, absent after: the Removed record
      next bh hB hA =>
      injection hdesc with hdesc
      obtain ⟨bcfgs, hbl, hbc⟩ := lookupHash_eq_some_iff.mp hB
      apply List.mem_append.mpr; left
      apply List.mem_flatMap.mpr
      refine ⟨(d.label, bcfgs), mem_of_lookupA_eq_some hbl, ?_⟩
      unfold diffsForBeforeLabel
      split
      · exact List.mem_map.mpr ⟨(d.configuration, bh), mem_of_lookupA_eq_some hbc,
          by rw [← hdesc]⟩
      · next acfgs hal =>
          have hac : lookupA d.configuration acfgs = none := by
            unfold lookupHash at hA
            rw [hal] at hA
            exact hA
          apply List.mem_append.mpr; left
          apply List.mem_filterMap.mpr
          refine ⟨(d.configuration, bh), mem_of_lookupA_eq_some hbc, ?_⟩
          simp only [hac]
          exact congrArg Option.some hdesc
    · -- absent before, present after: the Added record
      next ah hB hA =>
      injection hdesc with hdesc
      obtain ⟨acfgs, hal, hac⟩ := lookupHash_eq_some_iff.mp hA
      cases hbl : lookupA d.label beforeT with
      | none =>
          apply List.mem_append.mpr; right
          apply List.mem_flatMap.mpr
          refine ⟨(d.label, acfgs), mem_of_lookupA_eq_some hal, ?_⟩
          unfold diffsForAfterLabel
          rw [hbl]
          exact List.mem_map.mpr ⟨(d.configuration, ah), mem_of_lookupA_eq_some hac,
            by rw [← hdesc]⟩
      | some bcfgs =>
          have hbc : lookupA d.configuration bcfgs = none := by
            unfold lookupHash at hB
            rw [hbl] at hB
            exact hB
          apply List.mem_append.mpr; left
          apply List.mem_flatMap.mpr
          refine ⟨(d.label, bcfgs), mem_of_lookupA_eq_some hbl, ?_⟩
          unfold diffsForBeforeLabel
          rw [hal]
          apply List.mem_append.mpr; right
          apply List.mem_filterMap.mpr
          refine ⟨(d.configuration, ah), mem_of_lookupA_eq_some hac, ?_⟩
          simp only [hbc]
          exact congrArg Option.some hdesc
    · -- present on both sides: the Changed record when the hashes differ
      next bh ah hB hA =>
      split at hdesc
      · exact absurd hdesc (by simp)
      · next heq =>
          injection hdesc with hdesc
          obtain ⟨bcfgs, hbl, hbc⟩ := lookupHash_eq_some_iff.mp hB
          obtain ⟨acfgs, hal, hac⟩ := lookupHash_eq_some_iff.mp hA
          apply List.mem_append.mpr; left
          apply List.mem_flatMap.mpr
          refine ⟨(d.label, bcfgs), mem_of_lookupA_eq_some hbl, ?_⟩
          unfold diffsForBeforeLabel
          rw [hal]
          apply List.mem_append.mpr; left
          apply List.mem_filterMap.mpr
          refine ⟨(d.configuration, bh), mem_of_lookupA_eq_some hbc, ?_⟩
          simp only [hac]
          rw [if_pos heq]
          exact congrArg Option.some hdesc

/-! ## The differences carry pairwise-distinct (label, configuration) keys -/

theorem filterMap_map_sublist {α β γ : Type} {f : α → Option β} {g : β → γ} {h : α → γ}
    (hfg : ∀ a b, f a = some b → g b = h a) (l : List α) :
    ((l.filterMap f).map g).Sublist (l.map h) := by
  induction l with
  | nil => simp
  | cons a l ih =>
      cases hfa : f a with
      | none =>
          rw [List.filterMap_cons_none hfa, List.map_cons]
          exact List.Sublist.cons _ ih
      | some b =>
          rw [List.filterMap_cons_some hfa, List.map_cons, List.map_cons, hfg a b hfa]
          exact List.Sublist.cons₂ _ ih

theorem nodup_pairKeys {l : List (String × String)} (hp : (l.map Prod.fst).Nodup)
    (x : String) : (l.map (fun q => (x, q.1))).Nodup :=
  List.pairwise_map.mpr ((List.pairwise_map.mp hp).imp
    (fun h hkey => h (congrArg Prod.snd hkey)))

theorem label_of_mem_diffsForBeforeLabel {afterT : THash}
    {p : String × List (String × String)} {d : HashDiff}
    (hd : d ∈ diffsForBeforeLabel afterT p) : d.label = p.1 := by
  unfold diffsForBeforeLabel at hd
  split at hd
  · obtain ⟨q, _, rfl⟩ := List.mem_map.mp hd
    rfl
  · rcases List.mem_append.mp hd with hd | hd
    · obtain ⟨q, _, hfq⟩ := List.mem_filterMap.mp hd
      split at hfq
      · injection hfq with hfq
        rw [← hfq]
      · split at hfq
        · injection hfq with hfq
          rw [← hfq]
        · exact absurd hfq (by simp)
    · obtain ⟨q, _, hfq⟩ := List.mem_filterMap.mp hd
      split at hfq
      · injection hfq with hfq
        rw [← hfq]
      · exact absurd hfq (by simp)

theorem label_of_mem_diffsForAfterLabel {beforeT : THash}
    {p : String × List (String × String)} {d : HashDiff}
    (hd : d ∈ diffsForAfterLabel beforeT p) : d.label = p.1 := by
  unfold diffsForAfterLabel at hd
  split at hd
  · exact absurd hd (by simp)
  · obtain ⟨q, _, rfl⟩ := List.mem_map.mp hd
    rfl

theorem lookup_none_of_mem_diffsForAfterLabel {beforeT : THash}
    {p : String × List (String × String)} {d : HashDiff}
    (hd : d ∈ diffsForAfterLabel beforeT p) : lookupA p.1 beforeT = none := by
  unfold diffsForAfterLabel at hd
  split at hd
  · exact absurd hd (by simp)
  · next hcase => exact hcase

theorem keys_nodup_diffsForBeforeLabel {afterT : THash} (ha : WellFormedT afterT)
    {p : String × List (String × String)} (hp : (p.2.map Prod.fst).Nodup) :
    ((diffsForBeforeLabel afterT p).map diffKey).Nodup := by
  unfold diffsForBeforeLabel
  split
  · rw [List.map_map]
    exact nodup_pairKeys hp p.1
  · next afterConfigs hcase =>
      have hAc : (afterConfigs.map Prod.fst).Nodup :=
        (ha.2 _ (mem_of_lookupA_eq_some hcase)).1
      have hfg1 : ∀ q r, (fun q : String × String =>
          match lookupA q.1 afterConfigs with
          | none =>
              some (⟨p.1, q.1, "removed", q.2, ""⟩ : HashDiff)
          | some afterHash =>
              if q.2 ≠ afterHash then some ⟨p.1, q.1, "changed", q.2, afterHash⟩
              else none) q = some r → diffKey r = (p.1, q.1) := by
        intro q r hqr
        dsimp only at hqr
        split at hqr
        · injection hqr with hqr
          rw [← hqr]
          rfl
        · split at hqr
          · injection hqr with hqr
            rw [← hqr]
            rfl
          · exact absurd hqr (by simp)
      have hfg2 : ∀ q r, (fun q : String × String =>
          match lookupA q.1 p.2 with
          | none => some (⟨p.1, q.1, "added", "", q.2⟩ : HashDiff)
          | some _ => none) q = some r → diffKey r = (p.1, q.1) := by
        intro q r hqr
        dsimp only at hqr
        split at hqr
        · injection hqr with hqr
          rw [← hqr]
          rfl
        · exact absurd hqr (by simp)
      rw [List.map_append]
      apply List.Nodup.append
      · exact (filterMap_map_sublist hfg1 p.2).nodup (nodup_pairKeys hp p.1)
      · exact (filterMap_map_sublist hfg2 afterConfigs).nodup (nodup_pairKeys hAc p.1)
      · intro k hk1 hk2
        obtain ⟨r, hr, rfl⟩ := List.mem_map.mp hk1
        obtain ⟨q, hq, hfq⟩ := List.mem_filterMap.mp hr
        obtain ⟨r', hr', hkey⟩ := List.mem_map.mp hk2
        obtain ⟨q', hq', hfq'⟩ := List.mem_filterMap.mp hr'
        have h1 : diffKey r = (p.1, q.1) := hfg1 q r hfq
        have h2 : diffKey r' = (p.1, q'.1) := hfg2 q' r' hfq'
        have hnone : lookupA q'.1 p.2 = none := by
          split at hfq'
          · next hn => exact hn
          · exact absurd hfq' (by simp)
        have hqq : q'.1 = q.1 := by
          have := h2.symm.trans (hkey.trans h1)
          exact congrArg Prod.snd this
        rw [lookupA_eq_none_iff, hqq] at hnone
        exact hnone (List.mem_map_of_mem Prod.fst hq)

theorem keys_nodup_diffsForAfterLabel {beforeT : THash}
    {p : String × List (String × String)} (hp : (p.2.map Prod.fst).Nodup) :
    ((diffsForAfterLabel beforeT p).map diffKey).Nodup := by
  unfold diffsForAfterLabel
  split
  · simp
  · rw [List.map_map]
    exact nodup_pairKeys hp p.1

theorem compareDiffs_keys_nodup {beforeT afterT : THash}
    (hb : WellFormedT beforeT) (ha : WellFormedT afterT) :
    ((compareDiffs beforeT afterT).map diffKey).Nodup := by
  unfold compareDiffs
  rw [List.map_append, List.map_flatMap, List.map_flatMap]
  apply List.Nodup.append
  · apply List.nodup_flatMap.mpr
    constructor
    · intro p hp
      exact keys_nodup_diffsForBeforeLabel ha (hb.2 p hp).1
    · refine (List.pairwise_map.mp hb.1).imp ?_
      intro p p' hne k hk1 hk2
      obtain ⟨d, hd, rfl⟩ := List.mem_map.mp hk1
      obtain ⟨d', hd', hkey⟩ := List.mem_map.mp hk2
      have h1 : d.label = p.1 := label_of_mem_diffsForBeforeLabel hd
      have h2 : d'.label = p'.1 := label_of_mem_diffsForBeforeLabel hd'
      apply hne
      rw [← h1, ← h2]
      exact (congrArg Prod.fst hkey).symm
  · apply List.nodup_flatMap.mpr
    constructor
    · intro p hp
      exact keys_nodup_diffsForAfterLabel (ha.2 p hp).1
    · refine (List.pairwise_map.mp ha.1).imp ?_
      intro p p' hne k hk1 hk2
      obtain ⟨d, hd, rfl⟩ := List.mem_map.mp hk1
      obtain ⟨d', hd', hkey⟩ := List.mem_map.mp hk2
      have h1 : d.label = p.1 := label_of_mem_diffsForAfterLabel hd
      have h2 : d'.label = p'.1 := label_of_mem_diffsForAfterLabel hd'
      apply hne
      rw [← h1, ← h2]
      exact (congrArg Prod.fst hkey).symm
  · intro k hk1 hk2
    obtain ⟨keys1, hkeys1, hk1⟩ := List.mem_flatMap.mp hk1
    obtain ⟨keys2, hkeys2, hk2⟩ := List.mem_flatMap.mp hk2
    obtain ⟨d, hd, rfl⟩ := List.mem_map.mp hk1
    obtain ⟨d', hd', hkey⟩ := List.mem_map.mp hk2
    have h1 : d.label = keys1.1 := label_of_mem_diffsForBeforeLabel hd
    have h2 : d'.label = keys2.1 := label_of_mem_diffsForAfterLabel hd'
    have hnone : lookupA keys2.1 beforeT = none :=
      lookup_none_of_mem_diffsForAfterLabel hd'
    rw [lookupA_eq_none_iff] at hnone
    apply hnone
    have hlab : keys2.1 = keys1.1 := by
      rw [← h1, ← h2]
      exact congrArg Prod.fst hkey
    rw [hlab]
    exact List.mem_map_of_mem Prod.fst hkeys1

/-! ## Statuses and tallies -/

theorem status_of_mem_compareDiffs {beforeT afterT : THash} {d : HashDiff}
    (hd : d ∈ compareDiffs beforeT afterT) :
    d.status = "added" ∨ d.status = "removed" ∨ d.status = "changed" := by
  unfold compareDiffs at hd
  rcases List.mem_append.mp hd with hd | hd
  · obtain ⟨p, _, hdp⟩ := List.mem_flatMap.mp hd
    unfold diffsForBeforeLabel at hdp
    split at hdp
    · obtain ⟨q, _, rfl⟩ := List.mem_map.mp hdp
      right; left; rfl
    · rcases List.mem_append.mp hdp with hdp | hdp
      · obtain ⟨q, _, hfq⟩ := List.mem_filterMap.mp hdp
        split at hfq
        · injection hfq with hfq
          rw [← hfq]
          right; left; rfl
        · split at hfq
          · injection hfq with hfq
            rw [← hfq]
            right; right; rfl
          · exact absurd hfq (by simp)
      · obtain ⟨q, _, hfq⟩ := List.mem_filterMap.mp hdp
        split at hfq
        · injection hfq with hfq
          rw [← hfq]
          left; rfl
        · exact absurd hfq (by simp)
  · obtain ⟨p, _, hdp⟩ := List.mem_flatMap.mp hd
    unfold diffsForAfterLabel at hdp
    split at hdp
    · exact absurd hdp (by simp)
    · obtain ⟨q, _, rfl⟩ := List.mem_map.mp hdp
      left; rfl

theorem tallyCounts_eq_countP (L : List HashDiff) :
    tallyCounts L = ((L.countP (fun d => d.status == "added") : Int),
      (L.countP (fun d => d.status == "removed") : Int),
      (L.countP (fun d => d.status == "changed") : Int)) := by
  induction L with
  | nil => rfl
  | cons d rest ih =>
      simp only [tallyCounts, ih, List.countP_cons]
      split
      · next h => simp [h]
      · next h => simp [h]
      · next h => simp [h]
      · next h1 h2 h3 =>
          simp [h1, h2, h3]
          exact ⟨h1, h2, h3⟩

theorem length_eq_tally_sum {L : List HashDiff}
    (hstat : ∀ d ∈ L, d.status = "added" ∨ d.status = "removed" ∨ d.status = "changed") :
    (L.length : Int) =
      (tallyCounts L).1 + (tallyCounts L).2.1 + (tallyCounts L).2.2 := by
  induction L with
  | nil => rfl
  | cons d rest ih =>
      have hd := hstat d (List.mem_cons_self d rest)
      have ih' := ih (fun d' hd' => hstat d' (List.mem_cons_of_mem _ hd'))
      rcases hd with h | h | h <;>
        · simp only [tallyCounts, h, List.length_cons]
          push_cast
          rw [ih']
          ring

/-! ## Per-key facts about the differences -/

theorem describeDiff_fields {beforeT afterT : THash} {l c : String} {d : HashDiff}
    (h : describeDiff beforeT afterT l c = some d) :
    d.label = l ∧ d.configuration = c := by
  unfold describeDiff at h
  split at h
  · exact absurd h (by simp)
  · injection h with h
    rw [← h]
    exact ⟨rfl, rfl⟩
  · injection h with h
    rw [← h]
    exact ⟨rfl, rfl⟩
  · split at h
    · exact absurd h (by simp)
    · injection h with h
      rw [← h]
      exact ⟨rfl, rfl⟩

theorem describeDiff_eq_none_iff {beforeT afterT : THash} (l c : String) :
    describeDiff beforeT afterT l c = none ↔
      lookupHash beforeT l c = lookupHash afterT l c := by
  unfold describeDiff
  split
  · next hB hA => rw [hB, hA]; simp
  · next bh hB hA => rw [hB, hA]; simp
  · next ah hB hA => rw [hB, hA]; simp
  · next bh ah hB hA =>
      rw [hB, hA]
      by_cases heq : bh = ah
      · rw [if_pos heq]
        simp [heq]
      · rw [if_neg heq]
        simp [heq]

theorem key_mem_compareDiffs_iff {beforeT afterT : THash}
    (hb : WellFormedT beforeT) (ha : WellFormedT afterT) (l c : String) :
    (l, c) ∈ (compareDiffs beforeT afterT).map diffKey ↔
      describeDiff beforeT afterT l c ≠ none := by
  constructor
  · intro h
    obtain ⟨d, hd, hkey⟩ := List.mem_map.mp h
    have hdesc := (mem_compareDiffs_iff hb ha).mp hd
    have hl : d.label = l := congrArg Prod.fst hkey
    have hc : d.configuration = c := congrArg Prod.snd hkey
    rw [hl, hc] at hdesc
    rw [hdesc]
    simp
  · intro h
    cases hdesc : describeDiff beforeT afterT l c with
    | none => exact absurd hdesc h
    | some d =>
        obtain ⟨hl, hc⟩ := describeDiff_fields hdesc
        have hd : d ∈ compareDiffs beforeT afterT :=
          (mem_compareDiffs_iff hb ha).mpr (by rw [hl, hc]; exact hdesc)
        have hk : diffKey d = (l, c) := by
          unfold diffKey
          rw [hl, hc]
        rw [← hk]
        exact List.mem_map_of_mem diffKey hd

theorem countP_keyEq_of_nodup {α : Type} [DecidableEq α] {ks : List α} (hnd : ks.Nodup)
    (x : α) : ks.countP (fun y => decide (y = x)) = (if x ∈ ks then 1 else 0) := by
  induction ks with
  | nil => simp
  | cons a rest ih =>
      obtain ⟨hna, hnd'⟩ := List.nodup_cons.mp hnd
      rw [List.countP_cons, ih hnd']
      by_cases hax : a = x
      · subst hax
        rw [if_neg hna, if_pos (List.mem_cons_self _ _)]
        simp
      · have hpa : decide (a = x) = false := by simp [hax]
        have hmemiff : (x ∈ a :: rest) ↔ (x ∈ rest) := by
          rw [List.mem_cons]
          constructor
          · rintro (rfl | h)
            · exact absurd rfl hax
            · exact h
          · exact Or.inr
        rw [hpa]
        simp only [hmemiff]
        by_cases hx : x ∈ rest <;> simp [hx]

theorem key_countP_compareDiffs {beforeT afterT : THash}
    (hb : WellFormedT beforeT) (ha : WellFormedT afterT) (l c : String) :
    (compareDiffs beforeT afterT).countP (fun d => decide (diffKey d = (l, c))) =
      (if describeDiff beforeT afterT l c = none then 0 else 1) := by
  have h1 : (compareDiffs beforeT afterT).countP (fun d => decide (diffKey d = (l, c)))
      = ((compareDiffs beforeT afterT).map diffKey).countP (fun k => decide (k = (l, c))) := by
    rw [List.countP_map]
    rfl
  rw [h1, countP_keyEq_of_nodup (compareDiffs_keys_nodup hb ha) (l, c)]
  by_cases h : describeDiff beforeT afterT l c = none
  · rw [if_pos h, if_neg (fun hc => ((key_mem_compareDiffs_iff hb ha l c).mp hc) h)]
  · rw [if_neg h, if_pos ((key_mem_compareDiffs_iff hb ha l c).mpr h)]

/-! ## Affected labels -/

theorem sorted_affectedFromDiffs (L : List HashDiff) :
    List.Sorted (· ≤ ·) (affectedFromDiffs L) :=
  List.sorted_insertionSort _ _

theorem nodup_affectedFromDiffs (L : List HashDiff) :
    (affectedFromDiffs L).Nodup :=
  ((List.perm_insertionSort _ _).nodup_iff).mpr (List.nodup_dedup _)

theorem mem_affectedFromDiffs {L : List HashDiff} {l : String} :
    l ∈ affectedFromDiffs L ↔ ∃ d ∈ L, d.label = l := by
  unfold affectedFromDiffs
  rw [(List.perm_insertionSort _ _).mem_iff, List.mem_dedup, List.mem_map]

theorem mem_getAffected_go {l : String} {L : List HashDiff} :
    ∀ {seen : List String},
      l ∈ getAffectedTargetLabels.go seen L ↔ l ∉ seen ∧ ∃ d ∈ L, d.label = l := by
  induction L with
  | nil => intro seen; simp [getAffectedTargetLabels.go]
  | cons d rest ih =>
      intro seen
      rw [getAffectedTargetLabels.go]
      by_cases hmem : d.label ∈ seen
      · rw [if_pos hmem, ih]
        constructor
        · rintro ⟨h1, d', hd', rfl⟩
          exact ⟨h1, d', List.mem_cons_of_mem _ hd', rfl⟩
        · rintro ⟨h1, d', hd', rfl⟩
          rcases List.mem_cons.mp hd' with rfl | hd'
          · exact absurd hmem h1
          · exact ⟨h1, d', hd', rfl⟩
      · rw [if_neg hmem]
        constructor
        · intro h
          rcases List.mem_cons.mp h with rfl | h
          · exact ⟨hmem, d, List.mem_cons_self _ _, rfl⟩
          · obtain ⟨h1, hex⟩ := ih.mp h
            refine ⟨fun hc => h1 (List.mem_cons_of_mem _ hc), ?_⟩
            obtain ⟨d', hd', rfl⟩ := hex
            exact ⟨d', List.mem_cons_of_mem _ hd', rfl⟩
        · rintro ⟨h1, d', hd', rfl⟩
          rcases List.mem_cons.mp hd' with rfl | hd'
          · exact List.mem_cons_self _ _
          · by_cases hl : d'.label = d.label
            · rw [hl]
              exact List.mem_cons_self _ _
            · apply List.mem_cons_of_mem
              apply ih.mpr
              refine ⟨?_, d', hd', rfl⟩
              intro hc
              rcases List.mem_cons.mp hc with h | h
              · exact hl h
              · exact h1 h

theorem nodup_getAffected_go (L : List HashDiff) :
    ∀ (seen : List String), (getAffectedTargetLabels.go seen L).Nodup := by
  induction L with
  | nil => intro seen; simp [getAffectedTargetLabels.go]
  | cons d rest ih =>
      intro seen
      rw [getAffectedTargetLabels.go]
      by_cases hmem : d.label ∈ seen
      · rw [if_pos hmem]
        exact ih seen
      · rw [if_neg hmem]
        refine List.nodup_cons.mpr ⟨?_, ih _⟩
        intro hc
        exact (mem_getAffected_go.mp hc).1 (List.mem_cons_self _ _)

/-! ## Comparing a snapshot with itself -/

theorem describeDiff_self (s : THash) (l c : String) :
    describeDiff s s l c = none := by
  unfold describeDiff
  split
  · rfl
  · next bh hB hA => exact absurd (hB.symm.trans hA) (by simp)
  · next ah hB hA => exact absurd (hB.symm.trans hA) (by simp)
  · next bh ah hB hA =>
      have heq : bh = ah := by
        have h := hB.symm.trans hA
        injection h
      rw [if_pos heq]

theorem compareDiffs_self {s : THash} (hs : WellFormedT s) :
    compareDiffs s s = [] := by
  rw [List.eq_nil_iff_forall_not_mem]
  intro d hd
  have h := (mem_compareDiffs_iff hs hs).mp hd
  rw [describeDiff_self] at h
  exact Option.noConfusion h

/-! ## Round trip through the persisted JSON form -/

theorem decodeStringMap_encode (cfgs : List (String × String)) :
    decodeStringMap (cfgs.map (fun q => (q.1, Json.str q.2))) = .ok cfgs := by
  induction cfgs with
  | nil => rfl
  | cons q rest ih => simp [decodeStringMap, ih, Except.map]

theorem decodeTHashEntries_encode (th : THash) :
    decodeTHashEntries (th.map (fun p => (p.1, encodeConfigMap p.2))) = .ok th := by
  induction th with
  | nil => rfl
  | cons p rest ih =>
      have hc : decodeConfigMap (encodeConfigMap p.2) = .ok p.2 :=
        decodeStringMap_encode p.2
      simp [decodeTHashEntries, hc, ih, Except.map]

theorem decode_encode (d : PersistedHashData) :
    decodePersistedHashData (encodePersistedHashData d) = .ok d := by
  obtain ⟨sha, ts, br, th, ⟨tp, wp, tt⟩⟩ := d
  show (decodeTHashEntries (th.map (fun p => (p.1, encodeConfigMap p.2))) >>= fun thv =>
      (Except.ok
        { gitCommitSha := sha, timestamp := ts, bazelRelease := br,
          targetHashes := thv,
          metadata := { targetsPattern := tp, workspacePath := wp, totalTargets := tt } } :
        Except String PersistedHashData)) =
    Except.ok
      { gitCommitSha := sha, timestamp := ts, bazelRelease := br, targetHashes := th,
        metadata := { targetsPattern := tp, workspacePath := wp, totalTargets := tt } }
  rw [decodeTHashEntries_encode]
  rfl

/-! ## Example snapshots (from the spec's §8 scenarios) -/

/-- Before-snapshot of the spec's first §8 scenario. -/
def exBefore : PersistedHashData :=
  ⟨"shaBefore", "2024-01-01T00:00:00Z", "7.0.0",
    [("//a:x", [("c1", "aaa")])], ⟨"//...", "/ws", 1⟩⟩

/-- After-snapshot of the spec's first §8 scenario. -/
def exAfter : PersistedHashData :=
  ⟨"shaAfter", "2024-01-02T00:00:00Z", "7.0.0",
    [("//a:x", [("c1", "bbb")]), ("//b:y", [("c1", "ccc")])], ⟨"//...", "/ws", 2⟩⟩

/-- A before-snapshot whose labels iterate in descending order. -/
def exDescBefore : PersistedHashData :=
  ⟨"shaB", "2024-01-01T00:00:00Z", "7.0.0",
    [("//b:y", [("c1", "hb")]), ("//a:x", [("c1", "ha")])], ⟨"//...", "/ws", 2⟩⟩

/-- An empty after-snapshot. -/
def exEmptyAfter : PersistedHashData :=
  ⟨"shaA", "2024-01-02T00:00:00Z", "7.0.0", [], ⟨"//...", "/ws", 0⟩⟩

/-- `exDescBefore` with its label entries in the opposite iteration
order: the same mapping. -/
def exAscBefore : PersistedHashData :=
  ⟨"shaB", "2024-01-01T00:00:00Z", "7.0.0",
    [("//a:x", [("c1", "ha")]), ("//b:y", [("c1", "hb")])], ⟨"//...", "/ws", 2⟩⟩

/-! ## The claims -/

/-- C1: for every pair of well-formed snapshots the comparison is
exhaustive and non-overlapping — the number of difference records equals
totalAdded + totalRemoved + totalChanged; a (label, configuration) pair
present in either snapshot appears in exactly one record precisely when
its hashes are unequal or one-sided, and in no record when its hash is
unchanged. -/
theorem C1_comparison_exhaustive (beforeData afterData : PersistedHashData)
    (hb : WellFormedData beforeData) (ha : WellFormedData afterData) :
    ((compareHashData beforeData afterData).differences.length : Int) =
        (compareHashData beforeData afterData).summary.totalAdded +
        (compareHashData beforeData afterData).summary.totalRemoved +
        (compareHashData beforeData afterData).summary.totalChanged ∧
    ∀ l c, (lookupHash beforeData.targetHashes l c ≠ none ∨
        lookupHash afterData.targetHashes l c ≠ none) →
      (((compareHashData beforeData afterData).differences.countP
          (fun d => decide (diffKey d = (l, c))) = 1) ↔
        lookupHash beforeData.targetHashes l c ≠ lookupHash afterData.targetHashes l c) ∧
      (lookupHash beforeData.targetHashes l c = lookupHash afterData.targetHashes l c →
        (compareHashData beforeData afterData).differences.countP
          (fun d => decide (diffKey d = (l, c))) = 0) := by
  constructor
  · exact length_eq_tally_sum (fun d hd => status_of_mem_compareDiffs hd)
  · intro l c _hin
    have hcnt := key_countP_compareDiffs hb ha l c
    constructor
    · show (compareDiffs beforeData.targetHashes afterData.targetHashes).countP
          (fun d => decide (diffKey d = (l, c))) = 1 ↔ _
      rw [hcnt]
      by_cases h : describeDiff beforeData.targetHashes afterData.targetHashes l c = none
      · rw [if_pos h]
        constructor
        · intro h01
          exact absurd h01 (by decide)
        · intro hne
          exact absurd ((describeDiff_eq_none_iff l c).mp h) hne
      · rw [if_neg h]
        constructor
        · intro _ heq
          exact h ((describeDiff_eq_none_iff l c).mpr heq)
        · intro _
          rfl
    · intro heq
      show (compareDiffs beforeData.targetHashes afterData.targetHashes).countP
          (fun d => decide (diffKey d = (l, c))) = 0
      rw [hcnt, if_pos ((describeDiff_eq_none_iff l c).mpr heq)]

/-- Witness for C1 at the spec's §8 scenario. -/
theorem C1_comparison_exhaustive_witness :
    ((compareHashData exBefore exAfter).differences.length : Int) =
        (compareHashData exBefore exAfter).summary.totalAdded +
        (compareHashData exBefore exAfter).summary.totalRemoved +
        (compareHashData exBefore exAfter).summary.totalChanged :=
  (C1_comparison_exhaustive exBefore exAfter (by decide) (by decide)).1

/-- C2: every difference record has exactly one of the three statuses with
the matching before/after hash shape, and no record is produced for a
pair whose hashes agree in both snapshots. -/
theorem C2_record_shape (beforeData afterData : PersistedHashData)
    (hb : WellFormedData beforeData) (ha : WellFormedData afterData) :
    (∀ d ∈ (compareHashData beforeData afterData).differences,
      (d.status = "added" ∧ d.beforeHash = "" ∧ d.afterHash ≠ "") ∨
      (d.status = "removed" ∧ d.beforeHash ≠ "" ∧ d.afterHash = "") ∨
      (d.status = "changed" ∧ d.beforeHash ≠ "" ∧ d.afterHash ≠ "" ∧
        d.beforeHash ≠ d.afterHash)) ∧
    ∀ l c h, lookupHash beforeData.targetHashes l c = some h →
      lookupHash afterData.targetHashes l c = some h →
      ∀ d ∈ (compareHashData beforeData afterData).differences,
        ¬(d.label = l ∧ d.configuration = c) := by
  constructor
  · intro d hd
    have hdesc := (mem_compareDiffs_iff hb ha).mp hd
    unfold describeDiff at hdesc
    split at hdesc
    · exact absurd hdesc (by simp)
    · next bh hB hA =>
        injection hdesc with hdesc
        rw [← hdesc]
        right; left
        exact ⟨rfl, lookupHash_ne_empty hb hB, rfl⟩
    · next ah hB hA =>
        injection hdesc with hdesc
        rw [← hdesc]
        left
        exact ⟨rfl, rfl, lookupHash_ne_empty ha hA⟩
    · next bh ah hB hA =>
        split at hdesc
        · exact absurd hdesc (by simp)
        · next hne =>
            injection hdesc with hdesc
            rw [← hdesc]
            right; right
            exact ⟨rfl, lookupHash_ne_empty hb hB, lookupHash_ne_empty ha hA, hne⟩
  · rintro l c h h1 h2 d hd ⟨hl, hc⟩
    have hdesc := (mem_compareDiffs_iff hb ha).mp hd
    rw [hl, hc] at hdesc
    rw [(describeDiff_eq_none_iff l c).mpr (h1.trans h2.symm)] at hdesc
    exact Option.noConfusion hdesc

/-- Witness for C2 at the Changed record of the spec's §8 scenario. -/
theorem C2_record_shape_witness :
    ((⟨"//a:x", "c1", "changed", "aaa", "bbb"⟩ : HashDiff).status = "added" ∧
      (⟨"//a:x", "c1", "changed", "aaa", "bbb"⟩ : HashDiff).beforeHash = "" ∧
      (⟨"//a:x", "c1", "changed", "aaa", "bbb"⟩ : HashDiff).afterHash ≠ "") ∨
    ((⟨"//a:x", "c1", "changed", "aaa", "bbb"⟩ : HashDiff).status = "removed" ∧
      (⟨"//a:x", "c1", "changed", "aaa", "bbb"⟩ : HashDiff).beforeHash ≠ "" ∧
      (⟨"//a:x", "c1", "changed", "aaa", "bbb"⟩ : HashDiff).afterHash = "") ∨
    ((⟨"//a:x", "c1", "changed", "aaa", "bbb"⟩ : HashDiff).status = "changed" ∧
      (⟨"//a:x", "c1", "changed", "aaa", "bbb"⟩ : HashDiff).beforeHash ≠ "" ∧
      (⟨"//a:x", "c1", "changed", "aaa", "bbb"⟩ : HashDiff).afterHash ≠ "" ∧
      (⟨"//a:x", "c1", "changed", "aaa", "bbb"⟩ : HashDiff).beforeHash ≠
        (⟨"//a:x", "c1", "changed", "aaa", "bbb"⟩ : HashDiff).afterHash) :=
  (C2_record_shape exBefore exAfter (by decide) (by decide)).1
    ⟨"//a:x", "c1", "changed", "aaa", "bbb"⟩ (by decide)

/-- C3 counterexample: on well-formed snapshots whose before-mapping
iterates labels in descending order, GetAffectedTargetLabels returns the
affected labels in first-appearance order — here descending, not the
ascending order the claim asserts for every extraction. -/
theorem C3_counterexample :
    WellFormedData exDescBefore ∧ WellFormedData exEmptyAfter ∧
    getAffectedTargetLabels (compareHashData exDescBefore exEmptyAfter) =
      ["//b:y", "//a:x"] ∧
    ¬("//b:y" ≤ "//a:x") := by
  refine ⟨by decide, by decide, by decide, ?_⟩
  rw [String.le_iff_toList_le]
  decide

/-- C3 amended: the summary's affectedTargets is the ascending sorted,
duplicate-free list of the labels of the difference records; the
GetAffectedTargetLabels projection also yields each affected label
exactly once, but in order of first appearance in the differences, not
necessarily sorted. -/
theorem C3_affected_labels_amended (beforeData afterData : PersistedHashData) :
    List.Sorted (· ≤ ·) (compareHashData beforeData afterData).summary.affectedTargets ∧
    (compareHashData beforeData afterData).summary.affectedTargets.Nodup ∧
    (∀ l, l ∈ (compareHashData beforeData afterData).summary.affectedTargets ↔
      ∃ d ∈ (compareHashData beforeData afterData).differences, d.label = l) ∧
    (getAffectedTargetLabels (compareHashData beforeData afterData)).Nodup ∧
    (∀ l, l ∈ getAffectedTargetLabels (compareHashData beforeData afterData) ↔
      ∃ d ∈ (compareHashData beforeData afterData).differences, d.label = l) := by
  refine ⟨sorted_affectedFromDiffs _, nodup_affectedFromDiffs _,
    fun l => mem_affectedFromDiffs, nodup_getAffected_go _ _, fun l => ?_⟩
  rw [getAffectedTargetLabels, mem_getAffected_go]
  simp

/-- C4: comparing a well-formed snapshot with an identical copy of itself
yields no differences, no affected labels and all-zero counts. -/
theorem C4_self_comparison (s : PersistedHashData) (hs : WellFormedData s) :
    (compareHashData s s).differences = [] ∧
    (compareHashData s s).summary.affectedTargets = [] ∧
    (compareHashData s s).summary.totalAdded = 0 ∧
    (compareHashData s s).summary.totalRemoved = 0 ∧
    (compareHashData s s).summary.totalChanged = 0 := by
  have h := compareDiffs_self (s := s.targetHashes) hs
  refine ⟨h, ?_, ?_, ?_, ?_⟩
  · show affectedFromDiffs (compareDiffs s.targetHashes s.targetHashes) = []
    rw [h]
    rfl
  · show (tallyCounts (compareDiffs s.targetHashes s.targetHashes)).1 = 0
    rw [h]
    rfl
  · show (tallyCounts (compareDiffs s.targetHashes s.targetHashes)).2.1 = 0
    rw [h]
    rfl
  · show (tallyCounts (compareDiffs s.targetHashes s.targetHashes)).2.2 = 0
    rw [h]
    rfl

/-- Witness for C4 at a concrete snapshot. -/
theorem C4_self_comparison_witness :
    (compareHashData exBefore exBefore).differences = [] :=
  (C4_self_comparison exBefore (by decide)).1

/-- C5: in the label-list projection, with include-removed false a label
is emitted iff it is an affected label and the after-snapshot still maps
it to at least one configuration (membership, not record status); with
include-removed true every affected label is emitted.  The AfterTargets
summary member is Modelled from the spec (its declaration is missing
from the provided pkg sources; see `HashComparisonSummary`). -/
theorem C5_target_list_filter (beforeData afterData : PersistedHashData)
    (ha : WellFormedData afterData) :
    (∀ t, t ∈ outputTargetList (compareHashData beforeData afterData) false ↔
      t ∈ (compareHashData beforeData afterData).summary.affectedTargets ∧
      ∃ cfgs, lookupA t afterData.targetHashes = some cfgs ∧ cfgs ≠ []) ∧
    outputTargetList (compareHashData beforeData afterData) true =
      (compareHashData beforeData afterData).summary.affectedTargets := by
  have hat : ∀ t : String,
      ((compareHashData beforeData afterData).summary.afterTargets.contains t = true) ↔
      ∃ cfgs, lookupA t afterData.targetHashes = some cfgs ∧ cfgs ≠ [] := by
    intro t
    have hc : (afterTargetsOf afterData.targetHashes).contains t = true ↔
        t ∈ afterTargetsOf afterData.targetHashes := by
      simp [List.contains]
    show (afterTargetsOf afterData.targetHashes).contains t = true ↔ _
    rw [hc]
    unfold afterTargetsOf
    rw [List.mem_map]
    constructor
    · rintro ⟨p, hp, rfl⟩
      rw [List.mem_filter] at hp
      refine ⟨p.2, lookupA_eq_some_of_mem ha.1 (by rw [Prod.mk.eta]; exact hp.1), ?_⟩
      intro hnil
      have h2 := hp.2
      rw [hnil] at h2
      simp at h2
    · rintro ⟨cfgs, hl, hne⟩
      refine ⟨(t, cfgs), ?_, rfl⟩
      rw [List.mem_filter]
      refine ⟨mem_of_lookupA_eq_some hl, ?_⟩
      simp [hne]
  constructor
  · intro t
    unfold outputTargetList
    rw [List.mem_filter]
    constructor
    · rintro ⟨h1, h2⟩
      rw [Bool.or_false] at h2
      exact ⟨h1, (hat t).mp h2⟩
    · rintro ⟨h1, h2⟩
      refine ⟨h1, ?_⟩
      rw [Bool.or_false]
      exact (hat t).mpr h2
  · unfold outputTargetList
    simp

/-- Witness for C5 at the spec's §8 scenario. -/
theorem C5_target_list_filter_witness :
    outputTargetList (compareHashData exBefore exAfter) true =
      (compareHashData exBefore exAfter).summary.affectedTargets :=
  (C5_target_list_filter exBefore exAfter (by decide)).2

theorem except_bind_ok {ε α β : Type} {x : Except ε α} {f : α → Except ε β} {b : β}
    (h : (x >>= f) = .ok b) : ∃ a, x = .ok a ∧ f a = .ok b := by
  cases x with
  | error e => exact Except.noConfusion h
  | ok a => exact ⟨a, rfl, h⟩

theorem except_map_ok {ε α β : Type} {x : Except ε α} {f : α → β} {b : β}
    (h : x.map f = .ok b) : ∃ a, x = .ok a ∧ f a = b := by
  cases x with
  | error e => exact Except.noConfusion h
  | ok a =>
      refine ⟨a, rfl, ?_⟩
      have h' : Except.ok (ε := ε) (f a) = .ok b := h
      injection h'

/-- A successful whole-document decode means each of the five field
decoders succeeded on its looked-up field. -/
theorem decode_ok_fields {fields : List (String × Json)} {d : PersistedHashData}
    (h : decodePersistedHashData (Json.obj fields) = .ok d) :
    (∃ sha, decodeStringField (jLookupLast fields "git_commit_sha") = .ok sha) ∧
    (∃ ts, decodeStringField (jLookupLast fields "timestamp") = .ok ts) ∧
    (∃ br, decodeStringField (jLookupLast fields "bazel_release") = .ok br) ∧
    (∃ th, decodeTargetHashesField (jLookupLast fields "target_hashes") = .ok th) ∧
    (∃ md, decodeMetadataField (jLookupLast fields "metadata") = .ok md) := by
  simp only [decodePersistedHashData] at h
  obtain ⟨sha, h1, h⟩ := except_bind_ok h
  obtain ⟨ts, h2, h⟩ := except_bind_ok h
  obtain ⟨br, h3, h⟩ := except_bind_ok h
  obtain ⟨th, h4, h⟩ := except_bind_ok h
  obtain ⟨md, h5, h⟩ := except_bind_ok h
  exact ⟨⟨sha, h1⟩, ⟨ts, h2⟩, ⟨br, h3⟩, ⟨th, h4⟩, ⟨md, h5⟩⟩

/-- A successful metadata decode means each of its three field decoders
succeeded. -/
theorem decodeMetadataField_ok_fields {mfs : List (String × Json)} {md : HashMetadata}
    (h : decodeMetadataField (some (Json.obj mfs)) = .ok md) :
    (∃ tp, decodeStringField (jLookupLast mfs "targets_pattern") = .ok tp) ∧
    (∃ wp, decodeStringField (jLookupLast mfs "workspace_path") = .ok wp) ∧
    (∃ tt, decodeIntField (jLookupLast mfs "total_targets") = .ok tt) := by
  simp only [decodeMetadataField] at h
  obtain ⟨tp, h1, h⟩ := except_bind_ok h
  obtain ⟨wp, h2, h⟩ := except_bind_ok h
  obtain ⟨tt, h3, h⟩ := except_bind_ok h
  exact ⟨⟨tp, h1⟩, ⟨wp, h2⟩, ⟨tt, h3⟩⟩

theorem decodeStringField_ok_str {j : Json} {s : String}
    (h : decodeStringField (some j) = .ok s) : j = Json.str s := by
  cases j with
  | str s' =>
      have h' : Except.ok (ε := String) s' = .ok s := h
      injection h' with h'
      rw [h']
  | num n => exact Except.noConfusion h
  | obj fs => exact Except.noConfusion h

theorem decodeIntField_ok_num {j : Json} {n : Int}
    (h : decodeIntField (some j) = .ok n) : j = Json.num n := by
  cases j with
  | str s => exact Except.noConfusion h
  | num n' =>
      have h' : Except.ok (ε := String) n' = .ok n := h
      injection h' with h'
      rw [h']
  | obj fs => exact Except.noConfusion h

theorem decodeTargetHashesField_ok_obj {j : Json} {th : THash}
    (h : decodeTargetHashesField (some j) = .ok th) : ∃ fs, j = Json.obj fs := by
  cases j with
  | str s => exact Except.noConfusion h
  | num n => exact Except.noConfusion h
  | obj fs => exact ⟨fs, rfl⟩

theorem decodeMetadataField_ok_obj {j : Json} {md : HashMetadata}
    (h : decodeMetadataField (some j) = .ok md) : ∃ fs, j = Json.obj fs := by
  cases j with
  | str s => exact Except.noConfusion h
  | num n => exact Except.noConfusion h
  | obj fs => exact ⟨fs, rfl⟩

/-- A successful target_hashes decode means every entry's value decoded
as a configuration map. -/
theorem decodeTHashEntries_ok_values {tfs : List (String × Json)} :
    ∀ {th : THash}, decodeTHashEntries tfs = .ok th →
      ∀ p ∈ tfs, ∃ cf, decodeConfigMap p.2 = .ok cf := by
  induction tfs with
  | nil => intro th _ p hp; simp at hp
  | cons q rest ih =>
      intro th h p hp
      simp only [decodeTHashEntries] at h
      cases hq : decodeConfigMap q.2 with
      | error e =>
          rw [hq] at h
          exact Except.noConfusion h
      | ok cfgs =>
          rw [hq] at h
          obtain ⟨r, hr, _⟩ := except_map_ok h
          rcases List.mem_cons.mp hp with rfl | hp'
          · exact ⟨cfgs, hq⟩
          · exact ih hr p hp'

/-- A successful configuration-map decode means every value is a JSON
string. -/
theorem decodeStringMap_ok_values {cfs : List (String × Json)} :
    ∀ {r : List (String × String)}, decodeStringMap cfs = .ok r →
      ∀ q ∈ cfs, ∃ s, q.2 = Json.str s := by
  induction cfs with
  | nil => intro r _ q hq; simp at hq
  | cons p rest ih =>
      intro r h q hq
      simp only [decodeStringMap] at h
      cases hp2 : p.2 with
      | str s =>
          rw [hp2] at h
          obtain ⟨r', hr', _⟩ := except_map_ok h
          rcases List.mem_cons.mp hq with rfl | hq'
          · exact ⟨s, hp2⟩
          · exact ih hr' q hq'
      | num n =>
          rw [hp2] at h
          exact Except.noConfusion h
      | obj fs =>
          rw [hp2] at h
          exact Except.noConfusion h

/-- C6 counterexample: decoding an empty JSON object — the required
target_hashes field absent — succeeds, returning a snapshot whose
targetHashes has been silently defaulted to the empty mapping, against
the claim that such input must fail. -/
theorem C6_counterexample :
    loadPersistedHashes (some (Json.obj [])) =
      .ok ⟨"", "", "", [], ⟨"", "", 0⟩⟩ := rfl

/-- C6 amended: loading fails with an explicit error when the source
cannot be read or the content has the wrong JSON shape — the document is
not an object, or a present field (top-level, inside metadata, or at
either level inside target_hashes) has the wrong type; an absent field —
including target_hashes — is silently defaulted to its zero value,
matching standard structured-decode semantics, so decoding never fails
merely because a field is missing. -/
theorem C6_load_error_amended :
    (∃ e, loadPersistedHashes none = .error e) ∧
    (∀ s, ∃ e, loadPersistedHashes (some (Json.str s)) = .error e) ∧
    (∀ n, ∃ e, loadPersistedHashes (some (Json.num n)) = .error e) ∧
    (∀ fields j, jLookupLast fields "git_commit_sha" = some j →
      (∀ s, j ≠ Json.str s) →
      ∃ e, decodePersistedHashData (Json.obj fields) = .error e) ∧
    (∀ fields j, jLookupLast fields "timestamp" = some j →
      (∀ s, j ≠ Json.str s) →
      ∃ e, decodePersistedHashData (Json.obj fields) = .error e) ∧
    (∀ fields j, jLookupLast fields "bazel_release" = some j →
      (∀ s, j ≠ Json.str s) →
      ∃ e, decodePersistedHashData (Json.obj fields) = .error e) ∧
    (∀ fields j, jLookupLast fields "target_hashes" = some j →
      (∀ fs, j ≠ Json.obj fs) →
      ∃ e, decodePersistedHashData (Json.obj fields) = .error e) ∧
    (∀ fields j, jLookupLast fields "metadata" = some j →
      (∀ fs, j ≠ Json.obj fs) →
      ∃ e, decodePersistedHashData (Json.obj fields) = .error e) ∧
    (∀ fields mfs j, jLookupLast fields "metadata" = some (Json.obj mfs) →
      jLookupLast mfs "targets_pattern" = some j → (∀ s, j ≠ Json.str s) →
      ∃ e, decodePersistedHashData (Json.obj fields) = .error e) ∧
    (∀ fields mfs j, jLookupLast fields "metadata" = some (Json.obj mfs) →
      jLookupLast mfs "workspace_path" = some j → (∀ s, j ≠ Json.str s) →
      ∃ e, decodePersistedHashData (Json.obj fields) = .error e) ∧
    (∀ fields mfs j, jLookupLast fields "metadata" = some (Json.obj mfs) →
      jLookupLast mfs "total_targets" = some j → (∀ n, j ≠ Json.num n) →
      ∃ e, decodePersistedHashData (Json.obj fields) = .error e) ∧
    (∀ fields tfs p, jLookupLast fields "target_hashes" = some (Json.obj tfs) →
      p ∈ tfs → (∀ fs, p.2 ≠ Json.obj fs) →
      ∃ e, decodePersistedHashData (Json.obj fields) = .error e) ∧
    (∀ fields tfs l cfs q,
      jLookupLast fields "target_hashes" = some (Json.obj tfs) →
      (l, Json.obj cfs) ∈ tfs → q ∈ cfs → (∀ s, q.2 ≠ Json.str s) →
      ∃ e, decodePersistedHashData (Json.obj fields) = .error e) ∧
    (∀ fields d, jLookupLast fields "target_hashes" = none →
      decodePersistedHashData (Json.obj fields) = .ok d → d.targetHashes = []) := by
  refine ⟨⟨_, rfl⟩, fun s => ⟨_, rfl⟩, fun n => ⟨_, rfl⟩, ?_, ?_, ?_, ?_, ?_, ?_, ?_, ?_,
    ?_, ?_, ?_⟩
  · intro fields j hj hne
    cases hdec : decodePersistedHashData (Json.obj fields) with
    | error e => exact ⟨e, rfl⟩
    | ok d =>
        exfalso
        obtain ⟨sha, h1⟩ := (decode_ok_fields hdec).1
        rw [hj] at h1
        exact hne sha (decodeStringField_ok_str h1)
  · intro fields j hj hne
    cases hdec : decodePersistedHashData (Json.obj fields) with
    | error e => exact ⟨e, rfl⟩
    | ok d =>
        exfalso
        obtain ⟨ts, h2⟩ := (decode_ok_fields hdec).2.1
        rw [hj] at h2
        exact hne ts (decodeStringField_ok_str h2)
  · intro fields j hj hne
    cases hdec : decodePersistedHashData (Json.obj fields) with
    | error e => exact ⟨e, rfl⟩
    | ok d =>
        exfalso
        obtain ⟨br, h3⟩ := (decode_ok_fields hdec).2.2.1
        rw [hj] at h3
        exact hne br (decodeStringField_ok_str h3)
  · intro fields j hj hne
    cases hdec : decodePersistedHashData (Json.obj fields) with
    | error e => exact ⟨e, rfl⟩
    | ok d =>
        exfalso
        obtain ⟨th, h4⟩ := (decode_ok_fields hdec).2.2.2.1
        rw [hj] at h4
        obtain ⟨fs, rfl⟩ := decodeTargetHashesField_ok_obj h4
        exact hne fs rfl
  · intro fields j hj hne
    cases hdec : decodePersistedHashData (Json.obj fields) with
    | error e => exact ⟨e, rfl⟩
    | ok d =>
        exfalso
        obtain ⟨md, h5⟩ := (decode_ok_fields hdec).2.2.2.2
        rw [hj] at h5
        obtain ⟨fs, rfl⟩ := decodeMetadataField_ok_obj h5
        exact hne fs rfl
  · intro fields mfs j hm hj hne
    cases hdec : decodePersistedHashData (Json.obj fields) with
    | error e => exact ⟨e, rfl⟩
    | ok d =>
        exfalso
        obtain ⟨md, h5⟩ := (decode_ok_fields hdec).2.2.2.2
        rw [hm] at h5
        obtain ⟨tp, h6⟩ := (decodeMetadataField_ok_fields h5).1
        rw [hj] at h6
        exact hne tp (decodeStringField_ok_str h6)
  · intro fields mfs j hm hj hne
    cases hdec : decodePersistedHashData (Json.obj fields) with
    | error e => exact ⟨e, rfl⟩
    | ok d =>
        exfalso
        obtain ⟨md, h5⟩ := (decode_ok_fields hdec).2.2.2.2
        rw [hm] at h5
        obtain ⟨wp, h6⟩ := (decodeMetadataField_ok_fields h5).2.1
        rw [hj] at h6
        exact hne wp (decodeStringField_ok_str h6)
  · intro fields mfs j hm hj hne
    cases hdec : decodePersistedHashData (Json.obj fields) with
    | error e => exact ⟨e, rfl⟩
    | ok d =>
        exfalso
        obtain ⟨md, h5⟩ := (decode_ok_fields hdec).2.2.2.2
        rw [hm] at h5
        obtain ⟨tt, h6⟩ := (decodeMetadataField_ok_fields h5).2.2
        rw [hj] at h6
        exact hne tt (decodeIntField_ok_num h6)
  · intro fields tfs p hm hp hne
    cases hdec : decodePersistedHashData (Json.obj fields) with
    | error e => exact ⟨e, rfl⟩
    | ok d =>
        exfalso
        obtain ⟨th, h4⟩ := (decode_ok_fields hdec).2.2.2.1
        rw [hm] at h4
        obtain ⟨cf, hcf⟩ := decodeTHashEntries_ok_values h4 p hp
        cases hp2 : p.2 with
        | str s => rw [hp2] at hcf; exact Except.noConfusion hcf
        | num n => rw [hp2] at hcf; exact Except.noConfusion hcf
        | obj fs => exact hne fs hp2
  · intro fields tfs l cfs q hm hmem hq hne
    cases hdec : decodePersistedHashData (Json.obj fields) with
    | error e => exact ⟨e, rfl⟩
    | ok d =>
        exfalso
        obtain ⟨th, h4⟩ := (decode_ok_fields hdec).2.2.2.1
        rw [hm] at h4
        obtain ⟨cf, hcf⟩ := decodeTHashEntries_ok_values h4 (l, Json.obj cfs) hmem
        obtain ⟨s, hs⟩ := decodeStringMap_ok_values hcf q hq
        exact hne s hs
  · intro fields d hnone hdec
    obtain ⟨th, h4⟩ := (decode_ok_fields hdec).2.2.2.1
    simp only [decodePersistedHashData] at hdec
    obtain ⟨sha, h1, hdec⟩ := except_bind_ok hdec
    obtain ⟨ts, h2, hdec⟩ := except_bind_ok hdec
    obtain ⟨br, h3, hdec⟩ := except_bind_ok hdec
    obtain ⟨th', h4', hdec⟩ := except_bind_ok hdec
    obtain ⟨md, h5, hdec⟩ := except_bind_ok hdec
    rw [hnone] at h4'
    have hth : th' = [] := by
      have h6 : Except.ok (ε := String) ([] : THash) = .ok th' := h4'
      injection h6 with h6
      exact h6.symm
    injection hdec with hdec
    rw [← hdec]
    exact hth

/-- Witness for C6's amended statement: target_hashes of the wrong type
errors, and the empty object decodes with a defaulted empty mapping. -/
theorem C6_load_error_amended_witness :
    (∃ e, decodePersistedHashData
      (Json.obj [("target_hashes", Json.str "oops")]) = .error e) ∧
    (⟨"", "", "", [], ⟨"", "", 0⟩⟩ : PersistedHashData).targetHashes = [] :=
  ⟨C6_load_error_amended.2.2.2.2.2.2.1 [("target_hashes", Json.str "oops")]
      (Json.str "oops") rfl (fun _ h => Json.noConfusion h),
    C6_load_error_amended.2.2.2.2.2.2.2.2.2.2.2.2.2 []
      ⟨"", "", "", [], ⟨"", "", 0⟩⟩ rfl rfl⟩

/-- C7: saving a snapshot and loading it back returns a snapshot equal to
the original in all fields — labels, configuration keys and hash strings
round-trip exactly. -/
theorem C7_round_trip (d : PersistedHashData) :
    loadPersistedHashes (some (encodePersistedHashData d)) = .ok d := by
  simp only [loadPersistedHashes]
  rw [decode_encode]

/-- C8: the comparison is deterministic — on well-formed snapshot pairs
denoting the same mappings (equal lookups, as across iteration orders of
the same Go maps), the difference records agree as a multiset, the
summary counts agree, and the sorted affected-labels sequences are
identical. -/
theorem C8_deterministic (b1 b2 a1 a2 : PersistedHashData)
    (hb1 : WellFormedData b1) (hb2 : WellFormedData b2)
    (ha1 : WellFormedData a1) (ha2 : WellFormedData a2)
    (hbe : ∀ l c, lookupHash b1.targetHashes l c = lookupHash b2.targetHashes l c)
    (hae : ∀ l c, lookupHash a1.targetHashes l c = lookupHash a2.targetHashes l c) :
    (compareHashData b1 a1).differences.Perm (compareHashData b2 a2).differences ∧
    (compareHashData b1 a1).summary.totalAdded =
      (compareHashData b2 a2).summary.totalAdded ∧
    (compareHashData b1 a1).summary.totalRemoved =
      (compareHashData b2 a2).summary.totalRemoved ∧
    (compareHashData b1 a1).summary.totalChanged =
      (compareHashData b2 a2).summary.totalChanged ∧
    (compareHashData b1 a1).summary.affectedTargets =
      (compareHashData b2 a2).summary.affectedTargets := by
  have hdesc : ∀ l c, describeDiff b1.targetHashes a1.targetHashes l c =
      describeDiff b2.targetHashes a2.targetHashes l c := by
    intro l c
    unfold describeDiff
    rw [hbe l c, hae l c]
  have hmem : ∀ d : HashDiff, d ∈ compareDiffs b1.targetHashes a1.targetHashes ↔
      d ∈ compareDiffs b2.targetHashes a2.targetHashes := by
    intro d
    rw [mem_compareDiffs_iff hb1 ha1, mem_compareDiffs_iff hb2 ha2, hdesc]
  have hnd1 : (compareDiffs b1.targetHashes a1.targetHashes).Nodup :=
    List.Nodup.of_map diffKey (compareDiffs_keys_nodup hb1 ha1)
  have hnd2 : (compareDiffs b2.targetHashes a2.targetHashes).Nodup :=
    List.Nodup.of_map diffKey (compareDiffs_keys_nodup hb2 ha2)
  have hperm : (compareDiffs b1.targetHashes a1.targetHashes).Perm
      (compareDiffs b2.targetHashes a2.targetHashes) := by
    refine List.perm_of_nodup_nodup_toFinset_eq hnd1 hnd2 ?_
    ext d
    simp only [List.mem_toFinset]
    exact hmem d
  refine ⟨hperm, ?_, ?_, ?_, ?_⟩
  · show (tallyCounts (compareDiffs b1.targetHashes a1.targetHashes)).1 =
        (tallyCounts (compareDiffs b2.targetHashes a2.targetHashes)).1
    rw [tallyCounts_eq_countP, tallyCounts_eq_countP, hperm.countP_eq]
  · show (tallyCounts (compareDiffs b1.targetHashes a1.targetHashes)).2.1 =
        (tallyCounts (compareDiffs b2.targetHashes a2.targetHashes)).2.1
    rw [tallyCounts_eq_countP, tallyCounts_eq_countP,
      hperm.countP_eq (fun d => d.status == "removed")]
  · show (tallyCounts (compareDiffs b1.targetHashes a1.targetHashes)).2.2 =
        (tallyCounts (compareDiffs b2.targetHashes a2.targetHashes)).2.2
    rw [tallyCounts_eq_countP, tallyCounts_eq_countP,
      hperm.countP_eq (fun d => d.status == "changed")]
  · show affectedFromDiffs (compareDiffs b1.targetHashes a1.targetHashes) =
        affectedFromDiffs (compareDiffs b2.targetHashes a2.targetHashes)
    refine List.eq_of_perm_of_sorted ?_ (sorted_affectedFromDiffs _)
      (sorted_affectedFromDiffs _)
    unfold affectedFromDiffs
    exact (List.perm_insertionSort _ _).trans
      (((hperm.map _).dedup).trans (List.perm_insertionSort _ _).symm)

/-- Witness for C8: the same before-mapping presented in two iteration
orders yields identical affected targets. -/
theorem C8_deterministic_witness :
    (compareHashData exDescBefore exAfter).summary.affectedTargets =
      (compareHashData exAscBefore exAfter).summary.affectedTargets :=
  (C8_deterministic exDescBefore exAscBefore exAfter exAfter
    (by decide) (by decide) (by decide) (by decide)
    (by
      intro l c
      by_cases h1 : l = "//b:y"
      · subst h1; rfl
      · by_cases h2 : l = "//a:x"
        · subst h2; rfl
        · simp only [exDescBefore, exAscBefore, lookupHash, lookupA]
          rw [if_neg (fun hc => h1 hc.symm), if_neg (fun hc => h2 hc.symm),
            if_neg (fun hc => h2 hc.symm), if_neg (fun hc => h1 hc.symm)])
    (fun l c => rfl)).2.2.2.2

/-- C9: the comparison entry point fails exactly when one of the two
loads fails; whenever both loads succeed it returns the pure comparison
result with no error. -/
theorem C9_error_only_from_load (beforeFile afterFile : Option Json) :
    (∀ bd ad, loadPersistedHashes beforeFile = .ok bd →
        loadPersistedHashes afterFile = .ok ad →
        compareHashFiles beforeFile afterFile = .ok (compareHashData bd ad)) ∧
    ((∃ e, compareHashFiles beforeFile afterFile = .error e) ↔
      (∃ e, loadPersistedHashes beforeFile = .error e) ∨
      (∃ e, loadPersistedHashes afterFile = .error e)) := by
  constructor
  · intro bd ad h1 h2
    unfold compareHashFiles
    rw [h1, h2]
  · cases hb : loadPersistedHashes beforeFile with
    | error e =>
        constructor
        · intro _
          exact Or.inl ⟨e, rfl⟩
        · intro _
          refine ⟨"failed to load before hash file: " ++ e, ?_⟩
          unfold compareHashFiles
          rw [hb]
    | ok bd =>
        cases ha : loadPersistedHashes afterFile with
        | error e =>
            constructor
            · intro _
              exact Or.inr ⟨e, rfl⟩
            · intro _
              refine ⟨"failed to load after hash file: " ++ e, ?_⟩
              unfold compareHashFiles
              rw [hb, ha]
        | ok ad =>
            constructor
            · rintro ⟨e, hce⟩
              unfold compareHashFiles at hce
              rw [hb, ha] at hce
              exact Except.noConfusion hce
            · rintro (⟨e, he⟩ | ⟨e, he⟩)
              · exact Except.noConfusion he
              · exact Except.noConfusion he

/-- Witness for C9 at two loadable snapshot files. -/
theorem C9_error_only_from_load_witness :
    compareHashFiles (some (encodePersistedHashData exBefore))
        (some (encodePersistedHashData exAfter)) =
      .ok (compareHashData exBefore exAfter) :=
  (C9_error_only_from_load (some (encodePersistedHashData exBefore))
    (some (encodePersistedHashData exAfter))).1 exBefore exAfter rfl rfl

theorem extractHashes_totalTargets (hashFn : String → String → String)
    (entries : List (String × List String)) :
    (extractHashes hashFn entries).2 =
      (entries.map (fun p => (p.2.length : Int))).sum := by
  induction entries with
  | nil => rfl
  | cons p rest ih => simp [extractHashes, ih]

/-- C10: the persisted Metadata.TotalTargets counts one per (label,
configuration) hash entry — the sum over all matching labels of their
configuration counts, so a label with several configurations contributes
that many and a label with zero configurations contributes zero. -/
theorem C10_total_targets_count (gitCommitSha : String) (queryResults : QueryResults)
    (context : Context) (targetsPattern timestamp : String)
    (hashFn : String → String → String) :
    (buildPersistedData gitCommitSha queryResults context targetsPattern
        timestamp hashFn).metadata.totalTargets =
      (queryResults.matchingTargets.map (fun p => (p.2.length : Int))).sum := by
  show (extractHashes hashFn queryResults.matchingTargets).2 = _
  exact extractHashes_totalTargets hashFn queryResults.matchingTargets

end TargetDeterminator
